import Mathlib

/-!
# C_deStructor — verification of the schema-remapping pipeline

Shallow embedding of `src/C_deStructor.py` (class `C_deStructor`): the lexer,
the `typedef struct` schema parser, recursive schema flattening, the view-schema
parser and view-tree builder, initializer-literal parsing and flattening, field-map
construction, nested-initializer regeneration, declaration extraction, and the
`run` driver.  Python strings are `String`/`List Char`; Python dicts are ordered
association lists with insert-or-overwrite (`upsert`), which matches insertion-order
preserving `dict` semantics; Python exceptions are an explicit error type `PyErr`;
unbounded recursion over a (possibly cyclic) schema registry carries a fuel
parameter whose exhaustion models `RecursionError`.  Loops whose Python index
advances by at least one token per iteration are given fuel `length + 1`, which
provably never runs out, so those functions are total on their real domain.
-/

namespace CDS

/-- Python exception kinds the pipeline can raise. -/
inductive PyErr where
  | valueErr      -- ValueError (raised explicitly by the schema parser, or by int(float(...)))
  | indexErr      -- IndexError (sequence index out of range)
  | typeErr       -- TypeError (str.join applied to a list element)
  | attributeErr  -- AttributeError (instance attribute never assigned)
  | recursionErr  -- RecursionError (modelled by fuel exhaustion)
deriving DecidableEq

/-- ASCII `\d`. -/
def isDigitC (c : Char) : Bool := c.isDigit

/-- ASCII `[A-Za-z_]` (identifier start in the lexer's `ID` rule). -/
def isIdStart (c : Char) : Bool := c.isAlpha || c = '_'

/-- ASCII `\w`. -/
def isWordC (c : Char) : Bool := c.isAlphanum || c = '_'

/-- Python `str.isspace()` / regex `\s`, restricted to the ASCII whitespace
the inputs contain. -/
def isSpaceC (c : Char) : Bool :=
  c = ' ' || c = '\t' || c = '\n' || c = '\r' || c = '\x0b' || c = '\x0c'

/-- Decimal digit character, the ASCII way Python prints it. -/
def digitChar (n : Nat) : Char := Char.ofNat (48 + n)

/-- Decimal rendering loop; fuel `n + 1` always dominates the digit count. -/
def pyNatStrF : Nat → Nat → String
  | 0, _ => ""
  | fuel + 1, n =>
      if n < 10 then String.mk [digitChar n]
      else pyNatStrF fuel (n / 10) ++ String.mk [digitChar (n % 10)]

/-- Python `str(i)` for a natural number (`f"{i}"` in the source's f-strings). -/
def pyNatStr (n : Nat) : String := pyNatStrF (n + 1) n

/-- Python `str.strip()`: drop whitespace from both ends. -/
def pyStrip (s : String) : String :=
  String.mk (((s.data.dropWhile isSpaceC).reverse.dropWhile isSpaceC).reverse)

/-- Python `str.lstrip('_')`: drop leading underscores. -/
def lstripUnderscore (s : String) : String :=
  String.mk (s.data.dropWhile (· = '_'))

/-- Ordered-dict lookup (`d[k]` / `k in d`); keys are unique by construction. -/
def lookupA {α : Type} : List (String × α) → String → Option α
  | [], _ => none
  | (k, v) :: rest, key => if k = key then some v else lookupA rest key

/-- Ordered-dict assignment `d[k] = v`: overwrite in place, else append. -/
def upsert {α : Type} : List (String × α) → String → α → List (String × α)
  | [], key, v => [(key, v)]
  | (k, w) :: rest, key, v =>
      if k = key then (key, v) :: rest else (k, w) :: upsert rest key v

/-- `temp_array.setdefault(base, []).append(value)`: append to the entry's list,
creating the entry at the end if absent. -/
def upsertAppend : List (String × List String) → String → String → List (String × List String)
  | [], key, v => [(key, [v])]
  | (k, vs) :: rest, key, v =>
      if k = key then (key, vs ++ [v]) :: rest else (k, vs) :: upsertAppend rest key v

/-! ## Lexer (`tokenize`)

The Python token specification is an ordered regex alternation; at each
position the first alternative that matches wins, `OTHER` (any single
character except newline) last.  Whitespace and unrecognized characters are
dropped; a newline matches no alternative and is skipped by `finditer`. -/

inductive TokTy where
  | STRING | NUMBER | ID | LBRACE | RBRACE | LBRACKET | RBRACKET
  | SEMICOLON | COMMA | LPAREN | RPAREN | ASSIGN | DOT | OTHER
deriving DecidableEq

structure Token where
  ty  : TokTy
  val : String
deriving DecidableEq

/-- `"(?:\\.|[^"\\])*"` after the opening quote: returns (content without the
closing quote, rest after it), or `none` when unterminated. -/
def scanString : List Char → Option (List Char × List Char)
  | [] => none
  | '"' :: rest => some ([], rest)
  | '\\' :: c :: rest =>
      if c = '\n' then none
      else (scanString rest).map (fun (s, r) => ('\\' :: c :: s, r))
  | '\\' :: [] => none
  | c :: rest => (scanString rest).map (fun (s, r) => (c :: s, r))

/-- `\d+(\.\d*)?`: digits already begun; the optional fractional part. -/
def scanNumber (cs : List Char) : List Char × List Char :=
  let intPart := cs.takeWhile isDigitC
  let rest := cs.dropWhile isDigitC
  match rest with
  | '.' :: rest' =>
      (intPart ++ '.' :: rest'.takeWhile isDigitC, rest'.dropWhile isDigitC)
  | _ => (intPart, rest)

/-- One-character punctuation classes of the token specification. -/
def punctTy (c : Char) : Option TokTy :=
  if c = '{' then some .LBRACE else if c = '}' then some .RBRACE
  else if c = '[' then some .LBRACKET else if c = ']' then some .RBRACKET
  else if c = ';' then some .SEMICOLON else if c = ',' then some .COMMA
  else if c = '(' then some .LPAREN else if c = ')' then some .RPAREN
  else if c = '=' then some .ASSIGN else if c = '.' then some .DOT
  else none

/-- The lexer loop.  Each step consumes at least one character, so fuel
`length + 1` never runs out. -/
def tokenizeF : Nat → List Char → List Token
  | 0, _ => []
  | _ + 1, [] => []
  | fuel + 1, c :: rest =>
      if c = '"' then
        match scanString rest with
        | some (content, rest') =>
            ⟨.STRING, String.mk ('"' :: content ++ ['"'])⟩ :: tokenizeF fuel rest'
        | none => tokenizeF fuel rest  -- lone quote falls through to OTHER and is dropped
      else if isDigitC c then
        let (num, rest') := scanNumber (c :: rest)
        ⟨.NUMBER, String.mk num⟩ :: tokenizeF fuel rest'
      else if isIdStart c then
        ⟨.ID, String.mk (c :: rest.takeWhile isWordC)⟩ :: tokenizeF fuel (rest.dropWhile isWordC)
      else
        match punctTy c with
        | some ty => ⟨ty, String.mk [c]⟩ :: tokenizeF fuel rest
        | none => tokenizeF fuel rest  -- whitespace, newline and stray OTHER chars are dropped

def tokenize (s : String) : List Token :=
  tokenizeF (s.data.length + 1) s.data

/-! ## Schema parser (`parse_typedef_structs`)

A `Field` is `(имя_поля, тип_поля, размер_массива или None)` exactly as in the
source; a registry maps struct names to field lists. -/

abbrev Field := String × String × Option (List Nat)
abbrev Structs := List (String × List Field)
abbrev Mapping := List (String × String)

def digitsToNat (cs : List Char) : Nat :=
  cs.foldl (fun a c => 10 * a + (c.toNat - 48)) 0

/-- `int(float(v))` on a value of the lexer's `NUMBER` shape `\d+(\.\d*)?`;
any other value raises `ValueError` (modelled as `none`). -/
def pyIntFloat (s : String) : Option Nat :=
  let intPart := s.data.takeWhile isDigitC
  let rest := s.data.dropWhile isDigitC
  if intPart.isEmpty then none
  else match rest with
    | [] => some (digitsToNat intPart)
    | '.' :: ds => if ds.all isDigitC then some (digitsToNat intPart) else none
    | _ => none

/-- Collect a field statement's tokens up to the next `;` (consumed). -/
def splitAtSemicolon : List Token → List Token × List Token
  | [] => ([], [])
  | t :: rest =>
      if t.ty = .SEMICOLON then ([], rest)
      else
        let (f, r) := splitAtSemicolon rest
        (t :: f, r)

/-- Strip trailing `[ NUMBER ]` groups, right to left, on the reversed token
list; dims come out in declaration order (outer dimension first). -/
def stripDimsRev : List Token → Except PyErr (List Token × List Nat)
  | rb :: num :: lb :: rest =>
      if rb.ty = .RBRACKET ∧ num.ty = .NUMBER ∧ lb.ty = .LBRACKET then
        match pyIntFloat num.val with
        | none => .error .valueErr
        | some d => (stripDimsRev rest).map (fun (r, ds) => (r, ds ++ [d]))
      else .ok (rb :: num :: lb :: rest, [])
  | other => .ok (other, [])

/-- One field statement: trailing bracket groups become `dims`; the last
remaining token is the field name (`IndexError` if nothing remains); all
earlier tokens joined by spaces form the type. -/
def mkField (ftoks : List Token) : Except PyErr Field := do
  let (coreRev, dims) ← stripDimsRev ftoks.reverse
  let core := coreRev.reverse
  match core.getLast? with
  | none => .error .indexErr
  | some last =>
      .ok (last.val, pyStrip (String.intercalate " " (core.dropLast.map (·.val))),
           if dims.isEmpty then none else some dims)

/-- The field loop of `parse_typedef_structs`: statements until the next `}`
(left unconsumed); empty statements are skipped.  Each iteration consumes at
least one token, so fuel `length + 1` never runs out. -/
def parseFieldsF : Nat → List Token → Except PyErr (List Field × List Token)
  | 0, _ => .error .recursionErr
  | _ + 1, [] => .ok ([], [])
  | fuel + 1, t :: rest =>
      if t.ty = .RBRACE then .ok ([], t :: rest)
      else
        let (ftoks, rest') := splitAtSemicolon (t :: rest)
        if ftoks.isEmpty then parseFieldsF fuel rest'
        else do
          let fld ← mkField ftoks
          let (fs, r) ← parseFieldsF fuel rest'
          .ok (fld :: fs, r)

/-- The outer loop of `parse_typedef_structs`: scan for `typedef struct {`,
parse fields, require `}` to be followed by an identifier type name
(otherwise the source raises `ValueError`). -/
def parseTypedefF : Nat → List Token → Structs → Except PyErr Structs
  | 0, _, _ => .error .recursionErr
  | _ + 1, [], structs => .ok structs
  | fuel + 1, t :: rest, structs =>
      if t.ty = .ID ∧ t.val = "typedef" then
        match rest with
        | [] => .ok structs
        | t2 :: rest2 =>
            if t2.ty = .ID ∧ t2.val = "struct" then
              match rest2 with
              | [] => .ok structs
              | t3 :: rest3 =>
                  if t3.ty = .LBRACE then do
                    let (fields, rest4) ← parseFieldsF (rest3.length + 1) rest3
                    let rest5 := match rest4 with
                      | t4 :: r4 => if t4.ty = TokTy.RBRACE then r4 else t4 :: r4
                      | [] => []
                    match rest5 with
                    | t5 :: rest6 =>
                        if t5.ty = TokTy.ID then
                          let rest7 := match rest6 with
                            | t6 :: r6 => if t6.ty = TokTy.SEMICOLON then r6 else t6 :: r6
                            | [] => []
                          parseTypedefF fuel rest7 (upsert structs t5.val fields)
                        else .error .valueErr
                    | [] => .error .valueErr
                  else parseTypedefF fuel rest3 structs
            else parseTypedefF fuel rest2 structs
      else parseTypedefF fuel rest structs

def parseTypedefStructs (toks : List Token) : Except PyErr Structs :=
  parseTypedefF (toks.length + 1) toks []

/-! ## Path normalization and recursive flattening (`flatten_struct_fields`) -/

/-- `re.sub(r'\[\d+\]', '', path)`: strip complete `[digits]` groups,
left to right, non-overlapping. -/
def normalizeF : Nat → List Char → List Char
  | 0, _ => []
  | _ + 1, [] => []
  | fuel + 1, c :: rest =>
      if c = '[' then
        let ds := rest.takeWhile isDigitC
        match rest.dropWhile isDigitC with
        | ']' :: r3 => if ds.isEmpty then c :: normalizeF fuel rest else normalizeF fuel r3
        | _ => c :: normalizeF fuel rest
      else c :: normalizeF fuel rest

def normalizePath (s : String) : String :=
  String.mk (normalizeF (s.data.length + 1) s.data)

/-- `gen_indices`: row-major index-tuple strings, `cur` accumulating
`_i_j_...`, the leading underscores stripped at the leaves. -/
def genIndices : List Nat → String → List String
  | [], cur => [lstripUnderscore cur]
  | d :: ds, cur => (List.range d).flatMap (fun j => genIndices ds (cur ++ "_" ++ pyNatStr j))

/-- The per-field output prefix of `flatten_struct_fields`: the mapping
override (matched by normalized path, else bare name) re-anchors the name
verbatim; otherwise the parent prefix accumulates with `_`. -/
def fieldOutputPrefix (em : Mapping) (norm fname op : String) : String :=
  let currentOutput :=
    if !em.isEmpty then
      match lookupA em norm with
      | some v => v
      | none => match lookupA em fname with
        | some v => v
        | none => fname
    else fname
  if !em.isEmpty && ((lookupA em norm).isSome || (lookupA em fname).isSome) then
    currentOutput
  else if op = "" then currentOutput else op ++ "_" ++ currentOutput

mutual

/-- `flatten_struct_fields(structs, struct_name, source_prefix, output_prefix,
explicit_mapping)`.  Fuel decreases on every recursive step (one unit per
struct expansion, field, or array element), so the recursion is structural;
exhaustion (`none`) models the `RecursionError` a cyclic registry causes,
and any fuel at least the total number of expansion steps gives the
Python value. -/
def flattenSF : Nat → Structs → String → String → String → Mapping → Option (List String)
  | 0, _, _, _, _, _ => none
  | fuel + 1, structs, structName, sp, op, em =>
      match lookupA structs structName with
      | none => some []
      | some fields => flattenFlds fuel structs fields sp op em

/-- The field loop of `flatten_struct_fields`, extending the result list in
declaration order. -/
def flattenFlds : Nat → Structs → List Field → String → String → Mapping → Option (List String)
  | 0, _, _, _, _, _ => none
  | _ + 1, _, [], _, _, _ => some []
  | fuel + 1, structs, (fname, ftype, dims) :: rest, sp, op, em =>
      let fullSource := if sp = "" then fname else sp ++ "." ++ fname
      let newOp := fieldOutputPrefix em (normalizePath fullSource) fname op
      match fieldContrib fuel structs em ftype dims fullSource newOp,
            flattenFlds fuel structs rest sp op em with
      | some a, some b => some (a ++ b)
      | _, _ => none

/-- One field's flattened paths: a known struct type recurses (per index
combination when array-typed); a primitive leaf emits its prefix, expanded
per index combination when array-typed. -/
def fieldContrib : Nat → Structs → Mapping → String → Option (List Nat) → String → String →
    Option (List String)
  | 0, _, _, _, _, _, _ => none
  | fuel + 1, structs, em, ftype, dims, fullSource, newOp =>
      if (lookupA structs ftype).isSome then
        match dims with
        | none => flattenSF fuel structs ftype fullSource newOp em
        | some ds =>
            if ds.length = 1 then
              flattenNested fuel structs ftype em
                ((List.range (ds.headD 0)).map (fun i =>
                  (fullSource ++ "[" ++ pyNatStr i ++ "]", newOp ++ "_" ++ pyNatStr i)))
            else
              flattenNested fuel structs ftype em
                ((genIndices ds "").map (fun idx =>
                  (fullSource ++ "[" ++ idx ++ "]", newOp ++ "_" ++ idx)))
      else
        match dims with
        | none => some [newOp]
        | some ds =>
            if ds.length = 1 then
              some ((List.range (ds.headD 0)).map (fun i => newOp ++ "_" ++ pyNatStr i))
            else
              some ((genIndices ds "").map (fun idx => newOp ++ "_" ++ idx))

/-- Array-of-struct expansion: one recursive flatten per index, results
concatenated in index order. -/
def flattenNested : Nat → Structs → String → Mapping → List (String × String) → Option (List String)
  | 0, _, _, _, _ => none
  | _ + 1, _, _, _, [] => some []
  | fuel + 1, structs, ftype, em, (src, opfx) :: rest =>
      match flattenSF fuel structs ftype src opfx em,
            flattenNested fuel structs ftype em rest with
      | some a, some b => some (a ++ b)
      | _, _ => none

end

/-! ## View-schema parser (`parse_view_structs`) and view tree (`build_view_tree`)

The view parser is regex-driven: `typedef\s+struct\s*{([^}]*)}\s*(\w+)\s*;`
found anywhere in the text, each body parsed line by line with
`(\w+)\s+(\w+)(\s*\[\s*(\d+)\s*\])?;` after stripping; every сharacter class
involved is disjoint from its neighbour, so the match is deterministic. -/

/-- Match a literal character sequence, returning the rest. -/
def dropLit : List Char → List Char → Option (List Char)
  | [], cs => some cs
  | l :: ls, c :: cs => if c = l then dropLit ls cs else none
  | _ :: _, [] => none

/-- One attempt of the view-struct regex at the current position:
body characters (`[^}]*`), struct name, rest after the match. -/
def matchViewTypedefAt (cs : List Char) : Option (List Char × String × List Char) :=
  match dropLit "typedef".data cs with
  | none => none
  | some r1 =>
      if (r1.takeWhile isSpaceC).isEmpty then none
      else
        match dropLit "struct".data (r1.dropWhile isSpaceC) with
        | none => none
        | some r2 =>
            match r2.dropWhile isSpaceC with
            | '{' :: r4 =>
                let body := r4.takeWhile (· ≠ '}')
                match r4.dropWhile (· ≠ '}') with
                | '}' :: r5 =>
                    let r6 := r5.dropWhile isSpaceC
                    let nm := r6.takeWhile isWordC
                    if nm.isEmpty then none
                    else
                      match (r6.dropWhile isWordC).dropWhile isSpaceC with
                      | ';' :: r8 => some (body, String.mk nm, r8)
                      | _ => none
                | _ => none
            | _ => none

/-- `re.findall`: scan left to right, non-overlapping. -/
def viewFindAllF : Nat → List Char → List (List Char × String)
  | 0, _ => []
  | _ + 1, [] => []
  | fuel + 1, c :: rest =>
      match matchViewTypedefAt (c :: rest) with
      | some (body, nm, after) => (body, nm) :: viewFindAllF fuel after
      | none => viewFindAllF fuel rest

/-- Python `str.splitlines()` for `\n`-separated text. -/
def pySplitlinesF : Nat → List Char → List (List Char)
  | 0, _ => []
  | _ + 1, [] => []
  | fuel + 1, cs =>
      let line := cs.takeWhile (· ≠ '\n')
      match cs.dropWhile (· ≠ '\n') with
      | [] => [line]
      | _ :: rest => line :: pySplitlinesF fuel rest

/-- The per-line field regex `(\w+)\s+(\w+)(\s*\[\s*(\d+)\s*\])?;`, anchored
at the start of the stripped line (`re.match`). -/
def matchViewField (line : List Char) : Option Field :=
  let t := line.takeWhile isWordC
  if t.isEmpty then none
  else
    let r1 := line.dropWhile isWordC
    if (r1.takeWhile isSpaceC).isEmpty then none
    else
      let r2 := r1.dropWhile isSpaceC
      let nm := r2.takeWhile isWordC
      if nm.isEmpty then none
      else
        match r2.dropWhile isWordC with
        | ';' :: _ => some (String.mk nm, String.mk t, none)
        | r3 =>
            match r3.dropWhile isSpaceC with
            | '[' :: r5 =>
                let r6 := r5.dropWhile isSpaceC
                let ds := r6.takeWhile isDigitC
                if ds.isEmpty then none
                else
                  match (r6.dropWhile isDigitC).dropWhile isSpaceC with
                  | ']' :: ';' :: _ => some (String.mk nm, String.mk t, some [digitsToNat ds])
                  | _ => none
            | _ => none

/-- `parse_view_structs`: every recognized `typedef struct {...} name;`
block's body, line by line; blank lines, `//` lines and non-matching lines
are skipped. -/
def parseViewStructs (content : String) : Structs :=
  (viewFindAllF (content.data.length + 1) content.data).foldl
    (fun acc (body, nm) =>
      let fields := (pySplitlinesF (body.length + 1) body).filterMap (fun line =>
        let l := (line.dropWhile isSpaceC).reverse.dropWhile isSpaceC |>.reverse
        if l.isEmpty then none
        else if "//".data.isPrefixOf l then none
        else matchViewField l)
      upsert acc nm fields) []

/-- The view tree: Python's `Union[str, Dict]` where a dict either carries
the `"array"`/`"fields"` pair produced for an array-declared field, or maps
field names to subtrees; leaves are primitive type-name strings. -/
inductive VTree where
  | leaf (t : String)
  | obj (fields : List (String × Bool × Nat × VTree))

mutual

/-- `build_view_tree`: known sub-type names recurse; array-declared fields
record `(isArray := true, size, child)` (the `{"array": size, "fields": sub}`
dict); scalar fields record `(false, 0, child)`.  Fuel decreases on every
step so the recursion is structural; exhaustion models the unbounded
recursion a cyclic view registry causes. -/
def buildViewTree : Nat → Structs → String → Option VTree
  | 0, _, _ => none
  | fuel + 1, viewDefs, structName =>
      match lookupA viewDefs structName with
      | none => some (.leaf structName)
      | some fields => (buildViewFields fuel viewDefs fields).map .obj

/-- The field loop of `build_view_tree`. -/
def buildViewFields : Nat → Structs → List Field → Option (List (String × Bool × Nat × VTree))
  | 0, _, _ => none
  | _ + 1, _, [] => some []
  | fuel + 1, viewDefs, (fname, ftype, dims) :: rest =>
      let subtree : Option VTree :=
        if (lookupA viewDefs ftype).isSome then buildViewTree fuel viewDefs ftype
        else some (VTree.leaf ftype)
      match subtree, buildViewFields fuel viewDefs rest with
      | some sub, some restE =>
          match dims with
          | some ds => some ((fname, true, ds.headD 1, sub) :: restE)
          | none => some ((fname, false, 0, sub) :: restE)
      | _, _ => none

end

/-! ## Literal parser (`parse_initialization`) and flattening -/

/-- Scan for the closing `*/` of a block comment (minimal match). -/
def findStarSlash : Nat → List Char → Option (List Char)
  | 0, _ => none
  | _ + 1, [] => none
  | _ + 1, '*' :: '/' :: rest => some rest
  | fuel + 1, _ :: rest => findStarSlash fuel rest

/-- `re.sub(r'//.*?\n|/\*.*?\*/', '', text, flags=re.S)`: left-to-right,
non-overlapping removal; an unterminated comment opener stays in the text. -/
def removeCommentsF : Nat → List Char → List Char
  | 0, _ => []
  | _ + 1, [] => []
  | fuel + 1, '/' :: '/' :: rest =>
      if rest.contains '\n' then
        removeCommentsF fuel ((rest.dropWhile (· ≠ '\n')).tail)
      else '/' :: removeCommentsF fuel ('/' :: rest)
  | fuel + 1, '/' :: '*' :: rest =>
      match findStarSlash (rest.length + 1) rest with
      | some after => removeCommentsF fuel after
      | none => '/' :: removeCommentsF fuel ('*' :: rest)
  | fuel + 1, c :: rest => c :: removeCommentsF fuel rest

/-- A parsed initializer: scalar lexeme or brace-delimited list. -/
inductive PInit where
  | scalar (v : String)
  | blk (items : List PInit)

mutual

/-- `parse_block`: a brace-delimited, comma-separated list of values, or a
single scalar token; `tokens[pos]` on an empty stream is an `IndexError`.
Fuel `2·length + 2` suffices: every `{` costs two steps while consuming one
token, every other step consumes a token. -/
def parseBlockF : Nat → List Token → Except PyErr (PInit × List Token)
  | 0, _ => .error .recursionErr
  | _ + 1, [] => .error .indexErr
  | fuel + 1, t :: rest =>
      if t.ty = .LBRACE then do
        let (items, rest') ← parseItemsF fuel rest
        match rest' with
        | r :: rs => if r.ty = TokTy.RBRACE then .ok (.blk items, rs) else .ok (.blk items, r :: rs)
        | [] => .ok (.blk items, [])
      else .ok (.scalar t.val, rest)

def parseItemsF : Nat → List Token → Except PyErr (List PInit × List Token)
  | 0, _ => .error .recursionErr
  | _ + 1, [] => .ok ([], [])
  | fuel + 1, t :: rest =>
      if t.ty = .RBRACE then .ok ([], t :: rest)
      else if t.ty = .LBRACE then do
        let (sub, rest') ← parseBlockF fuel (t :: rest)
        let (more, rest'') ← parseItemsF fuel rest'
        .ok (sub :: more, rest'')
      else if t.ty = .NUMBER ∨ t.ty = .ID ∨ t.ty = .DOT ∨ t.ty = .STRING then do
        let (more, rest') ← parseItemsF fuel rest
        .ok (.scalar t.val :: more, rest')
      else parseItemsF fuel rest

end

/-- `parse_initialization`: strip comments, tokenize, parse the first block;
trailing tokens are ignored. -/
def parseInitialization (s : String) : Except PyErr PInit :=
  let text := String.mk (removeCommentsF (s.data.length + 1) s.data)
  let toks := tokenize text
  (parseBlockF (2 * toks.length + 2) toks).map Prod.fst

mutual

/-- `flatten_initialization`: depth-first, left-to-right scalar leaves. -/
def flattenInit : PInit → List String
  | .scalar v => [v]
  | .blk items => flattenInitList items

def flattenInitList : List PInit → List String
  | [] => []
  | x :: rest => flattenInit x ++ flattenInitList rest

end

/-! ## Field map (`generate_field_map`) -/

/-- A field-map value: one literal, or the ordered group for an array base. -/
inductive FMVal where
  | s (v : String)
  | l (vs : List String)
deriving DecidableEq

/-- `re.match(r'(.+?)_(\d+)$', field)`: the shortest non-empty newline-free
prefix followed by `_` and a non-empty all-digit suffix reaching the end
(`$` also matches just before one final newline). -/
def suffixBaseAux : List Char → List Char → Option (String × String)
  | _, [] => none
  | pre, c :: rest =>
      if c = '_' then
        if !pre.isEmpty && !rest.isEmpty && rest.all isDigitC then
          some (String.mk pre.reverse, String.mk rest)
        else suffixBaseAux (c :: pre) rest
      else if c = '\n' then none
      else suffixBaseAux (c :: pre) rest

def suffixBase (s : String) : Option (String × String) :=
  let core := if s.data.getLast? = some '\n' then s.data.dropLast else s.data
  suffixBaseAux [] core

/-- The zipping loop of `generate_field_map`: stop when the values run out;
indexed names accumulate into `temp` under their stripped base, others are
assigned directly. -/
def gfmLoop : List String → List String → List (String × FMVal) → List (String × List String) →
    List (String × FMVal) × List (String × List String)
  | _, [], result, temp => (result, temp)
  | [], _, result, temp => (result, temp)
  | field :: fs, v :: vs, result, temp =>
      match suffixBase field with
      | some (base, _) => gfmLoop fs vs result (upsertAppend temp base v)
      | none => gfmLoop fs vs (upsert result field (.s v)) temp

/-- `generate_field_map`: scalars first, then every grouped array base is
written over the result in `temp` insertion order. -/
def generateFieldMap (fieldNames initValues : List String) : List (String × FMVal) :=
  let (result, temp) := gfmLoop fieldNames initValues [] []
  temp.foldl (fun r (b, vs) => upsert r b (.l vs)) result

/-! ## Nested-initializer generation (`generate_nested_initializer`) -/

/-- `", ".join(parts)`: raises `TypeError` when an element is a list. -/
def joinParts : List FMVal → Except PyErr (List String)
  | [] => .ok []
  | .s v :: rest => (joinParts rest).map (v :: ·)
  | .l _ :: _ => .error .typeErr

mutual

/-- `generate_nested_initializer(view_tree, field_map, prefix)`: a leaf looks
up the prefix (default `"0"`); an object renders its fields comma-joined in
braces, preferring a direct field-map hit over recursion.  The Python walk
always terminates on the finite tree; the fuel (decreasing each step, so the
recursion is structural) is a model artifact and any value at least the
number of tree nodes visited gives the Python result. -/
def genNI : Nat → VTree → List (String × FMVal) → String → Except PyErr FMVal
  | 0, _, _, _ => .error .recursionErr
  | _ + 1, .leaf _, fm, pref => .ok ((lookupA fm pref).getD (.s "0"))
  | fuel + 1, .obj fields, fm, pref => do
      let parts ← genNIFields fuel fields fm pref
      let strs ← joinParts parts
      .ok (.s ("\x7b" ++ String.intercalate ", " strs ++ "\x7d"))

/-- The field loop: array entries render `{elem, ...}` with a direct
`prefix_i` lookup tried before recursing; scalar entries try the full key. -/
def genNIFields : Nat → List (String × Bool × Nat × VTree) → List (String × FMVal) → String →
    Except PyErr (List FMVal)
  | 0, _, _, _ => .error .recursionErr
  | _ + 1, [], _, _ => .ok []
  | fuel + 1, (key, isArr, size, sub) :: rest, fm, pref => do
      let fullKey := if pref = "" then key else pref ++ "_" ++ key
      let part ←
        if isArr then do
          let elems ← genNIArray fuel sub fm fullKey (List.range size)
          let strs ← joinParts elems
          pure (FMVal.s ("\x7b" ++ String.intercalate ", " strs ++ "\x7d"))
        else
          match lookupA fm fullKey with
          | some v => pure v
          | none => genNI fuel sub fm fullKey
      let more ← genNIFields fuel rest fm pref
      pure (part :: more)

/-- The array-element loop over `range(size)`. -/
def genNIArray : Nat → VTree → List (String × FMVal) → String → List Nat → Except PyErr (List FMVal)
  | 0, _, _, _, _ => .error .recursionErr
  | _ + 1, _, _, _, [] => .ok []
  | fuel + 1, sub, fm, fullKey, i :: is => do
      let ek := fullKey ++ "_" ++ pyNatStr i
      let e ← match lookupA fm ek with
        | some v => pure v
        | none => genNI fuel sub fm ek
      let more ← genNIArray fuel sub fm fullKey is
      pure (e :: more)

end

/-! ## Structure check and per-block processing (`check_structure_type`,
`process_structure`) -/

/-- `check_structure_type`: compare the flattened literal's length against
the flattened schema's; `none` models the `RecursionError` of flattening a
cyclic registry. -/
def checkStructureType (fuel : Nat) (structs : Structs) (target : String) (em : Mapping)
    (flatValues : List String) : Option Bool :=
  (flattenSF fuel structs target "" "" em).map (fun paths => !(flatValues.length < paths.length))

/-- `isinstance(parsed, list) and parsed and isinstance(parsed[0], list)`. -/
def isBatch : PInit → Bool
  | .blk (.blk _ :: _) => true
  | _ => false

/-- The batch loop of `process_structure`: failing elements are skipped,
the rest are flattened, mapped and rendered in order. -/
def processItems (fuel : Nat) (structs : Structs) (target : String) (em : Mapping)
    (vt : VTree) : List PInit → Except PyErr (List FMVal)
  | [] => .ok []
  | item :: rest => do
      let flat := flattenInit item
      match checkStructureType fuel structs target em flat with
      | none => .error .recursionErr
      | some false => processItems fuel structs target em vt rest
      | some true =>
          match flattenSF fuel structs target "" "" em with
          | none => .error .recursionErr
          | some flatFields => do
              let r ← genNI fuel vt (generateFieldMap flatFields flat) ""
              let more ← processItems fuel structs target em vt rest
              .ok (r :: more)

/-- `process_structure(init_block)`: batch mode when the first parsed element
is itself a list; single mode yields `""` on a failed check, else the
generator's result as-is. -/
def processStructure (fuel : Nat) (structs : Structs) (target : String) (em : Mapping)
    (vt : VTree) (initBlock : String) : Except PyErr FMVal := do
  let parsed ← parseInitialization initBlock
  match parsed with
  | .blk (.blk b :: others) => do
      let rs ← processItems fuel structs target em vt (.blk b :: others)
      let strs ← joinParts rs
      .ok (.s ("\x7b\n" ++ String.intercalate ",\n" strs ++ "\n\x7d"))
  | _ => do
      let flat := flattenInit parsed
      match checkStructureType fuel structs target em flat with
      | none => .error .recursionErr
      | some false => .ok (.s "")
      | some true =>
          match flattenSF fuel structs target "" "" em with
          | none => .error .recursionErr
          | some flatFields => genNI fuel vt (generateFieldMap flatFields flat) ""

/-! ## Declaration extraction (`extract_declaration_info`)

`re.search` of `^(?:\w+\s+)*TARGET\s+(\w+)\s*(\[\s*(\d*)\s*\])?\s*=\s*(\{.*?\})\s*;`
with `re.S | re.M`: candidate start positions are the string start and every
position after a newline, scanned left to right; the specifier star is greedy
and backtracks whole `\w+\s+` chunks; `\w`, `\s` and the literal punctuation
are pairwise disjoint, so everything else is deterministic. -/

structure DeclInfo where
  spec : String
  var : String
  arraySize : Option String
  init : String
deriving DecidableEq

/-- One greedy `\w+\s+` specifier chunk. -/
def takeChunk (cs : List Char) : Option (List Char × List Char) :=
  let w := cs.takeWhile isWordC
  if w.isEmpty then none
  else
    let r := cs.dropWhile isWordC
    let sp := r.takeWhile isSpaceC
    if sp.isEmpty then none
    else some (w ++ sp, r.dropWhile isSpaceC)

/-- The non-greedy `.*?` of the init group: the body up to the first `}`
that is followed by `\s*;`. -/
def scanInitBody : Nat → List Char → Option (List Char)
  | 0, _ => none
  | _ + 1, [] => none
  | fuel + 1, c :: rest =>
      if c = '}' ∧ (rest.dropWhile isSpaceC).head? = some ';' then some []
      else (scanInitBody fuel rest).map (c :: ·)

/-- Everything after the specifier star: the literal target type, variable,
optional bracket group, `=` and the brace-delimited init block. -/
def matchDeclTail (target : String) (specRaw : List Char) (cs : List Char) : Option DeclInfo :=
  match dropLit target.data cs with
  | none => none
  | some r1 =>
      if (r1.takeWhile isSpaceC).isEmpty then none
      else
        let r2 := r1.dropWhile isSpaceC
        let var := r2.takeWhile isWordC
        if var.isEmpty then none
        else
          let r3 := (r2.dropWhile isWordC).dropWhile isSpaceC
          let bracket : Option (Option String × List Char) :=
            match r3 with
            | '[' :: r3' =>
                let r3'' := r3'.dropWhile isSpaceC
                let ds := r3''.takeWhile isDigitC
                match (r3''.dropWhile isDigitC).dropWhile isSpaceC with
                | ']' :: r4 => some (some (String.mk ds), r4)
                | _ => none
            | _ => some (none, r3)
          match bracket with
          | none => none
          | some (size, r4) =>
              match r4.dropWhile isSpaceC with
              | '=' :: r6 =>
                  match r6.dropWhile isSpaceC with
                  | '{' :: r7 =>
                      match scanInitBody (r7.length + 1) r7 with
                      | none => none
                      | some body =>
                          some { spec := pyStrip (String.mk specRaw)
                               , var := String.mk var
                               , arraySize := size.map (fun ds => if ds = "" then "[]" else ds)
                               , init := "\x7b" ++ String.mk body ++ "\x7d" }
                  | _ => none
              | _ => none

/-- The greedy specifier star: try one more chunk first, fall back to
matching the tail here. -/
def tryDeclFrom : Nat → String → List Char → List Char → Option DeclInfo
  | 0, _, _, _ => none
  | fuel + 1, target, specRaw, cs =>
      match takeChunk cs with
      | some (chunk, rest) =>
          match tryDeclFrom fuel target (specRaw ++ chunk) rest with
          | some r => some r
          | none => matchDeclTail target specRaw cs
      | none => matchDeclTail target specRaw cs

/-- `re.search` with `re.M`: leftmost match over line-start positions. -/
def extractScanF : Nat → String → Bool → List Char → Option DeclInfo
  | 0, _, _, _ => none
  | _ + 1, _, _, [] => none
  | fuel + 1, target, atStart, c :: rest =>
      if atStart then
        match tryDeclFrom ((c :: rest).length + 1) target [] (c :: rest) with
        | some r => some r
        | none => extractScanF fuel target (c = '\n') rest
      else extractScanF fuel target (c = '\n') rest

/-- `extract_declaration_info`: `none` means no statement was found and the
instance attributes `init_block`, `var_nameSrc`, `array_size`, `prefix` were
never assigned. -/
def extractDeclarationInfo (target : String) (text : String) : Option DeclInfo :=
  extractScanF (text.data.length + 1) target true text.data

/-! ## Declaration wrapping and the `run` driver -/

/-- Python `str()` of the generator's result: a plain string, or the `repr`
of a list of (quote-free) strings when the generator returned a grouped
list, as an f-string would render it. -/
def pyStr : FMVal → String
  | .s v => v
  | .l vs => "[" ++ String.intercalate ", " (vs.map (fun x => "'" ++ x ++ "'")) ++ "]"

/-- `generate_declaration`: the three f-strings of the source, selected on
`array_size` (`None`, `"[]"`, or a size literal). -/
def generateDeclaration (pfx target var post initStr : String)
    (arraySize : Option String) : String :=
  match arraySize with
  | some sz =>
      if sz = "[]" then pfx ++ " " ++ target ++ " " ++ var ++ "[]" ++ post ++ " = " ++ initStr ++ ";"
      else pfx ++ " " ++ target ++ " " ++ var ++ "[" ++ sz ++ "]" ++ post ++ " = " ++ initStr ++ ";"
  | none => pfx ++ " " ++ target ++ " " ++ var ++ post ++ " = " ++ initStr ++ ";"

/-- `load_mapping`: `key: value` per line; blank and `#` lines skipped;
split at the first `:`. -/
def loadMapping : Option (List String) → Mapping
  | none => []
  | some lines => lines.foldl (fun acc line =>
      let l := pyStrip line
      if l = "" then acc
      else if l.data.head? = some '#' then acc
      else if l.data.contains ':' then
        upsert acc (pyStrip (String.mk (l.data.takeWhile (· ≠ ':'))))
          (pyStrip (String.mk ((l.data.dropWhile (· ≠ ':')).tail)))
      else acc) []

/-- `run`: load the full schema, the view tree and the mapping, extract the
declaration, process its init block and wrap the result.  When no
declaration matches, `self.init_block` was never assigned and reading it
raises `AttributeError`.  File reading is out-of-scope I/O glue: the raw
texts are taken directly. -/
def run (fuel : Nat) (headerText viewText : String) (mappingLines : Option (List String))
    (initText targetStruct targetView newVarName : String) : Except PyErr String := do
  let structs ← parseTypedefStructs (tokenize headerText)
  let viewDefs := parseViewStructs viewText
  match buildViewTree fuel viewDefs targetView with
  | none => .error .recursionErr
  | some vt =>
      let em := loadMapping mappingLines
      match extractDeclarationInfo targetStruct initText with
      | none => .error .attributeErr
      | some info => do
          let initVal ← processStructure fuel structs targetStruct em vt info.init
          let pfx := if info.spec ≠ "" then info.spec ++ " " else ""
          let var := if newVarName ≠ "" then newVarName else info.var
          .ok (generateDeclaration pfx targetStruct var "" (pyStr initVal) info.arraySize)

/-! ## Concrete inputs used by several claims -/

/-- The array example's full (and view) schema text. -/
def boxHeaderText : String := "typedef struct \x7b int v[3]; \x7d box;"

/-- The array example's initializer statement. -/
def boxInitText : String := "box b[1] = \x7b\x7b \x7b1,2,3\x7d \x7d\x7d;"

/-- The `box` registry as the schema parser produces it. -/
def boxStructs : Structs := [("box", [("v", "int", some [3])])]

/-! ## Claims -/

/-- **C1.** End-to-end array example.  The flattened schema names are
`[v_0, v_1, v_2]` and the flattened literal is `[1, 2, 3]` as the claim
states, but the produced declaration is ` box b[1] = {\n{{0, 0, 0}}\n};`,
not `box b[1] = {\n{1, 2, 3}\n};`: `generate_field_map` groups the three
values under the key `v`, while the generator's array branch looks up
`v_0`, `v_1`, `v_2` and, missing them, renders the zero fallback (and the
element keeps its own struct braces, and the `f"{self.prefix} ..."`
wrapping with an empty prefix leaves a leading space). -/
theorem cds_c1_array_example :
    parseTypedefStructs (tokenize boxHeaderText) = .ok boxStructs ∧
    flattenSF 100 boxStructs "box" "" "" [] = some ["v_0", "v_1", "v_2"] ∧
    (extractDeclarationInfo "box" boxInitText).map (fun i => i.init) = some "\x7b\x7b \x7b1,2,3\x7d \x7d\x7d" ∧
    (parseInitialization "\x7b\x7b \x7b1,2,3\x7d \x7d\x7d").map flattenInit = .ok ["1", "2", "3"] ∧
    run 100 boxHeaderText boxHeaderText none boxInitText "box" "box" "" =
      .ok " box b[1] = \x7b\n\x7b\x7b0, 0, 0\x7d\x7d\n\x7d;" := by
  refine ⟨rfl, rfl, rfl, rfl, rfl⟩

/-- **C2.** MissingInstance: for an input whose initializer text contains no
statement for the requested struct, `extract_declaration_info` assigns no
attributes, so `run`'s subsequent read of `self.init_block` raises
`AttributeError` instead of reporting and returning the empty string. -/
theorem cds_c2_missing_instance :
    extractDeclarationInfo "box" "int x = 5;" = none ∧
    run 100 boxHeaderText boxHeaderText none "int x = 5;" "box" "box" "" =
      .error .attributeErr := by
  refine ⟨rfl, rfl⟩

/-- **C3.** Round-trip failure: for the `box` schema, the literal values
`[1, 2, 3]` exactly match the flattened leaf count (3), and the view tree is
built from the very same registry (hence structurally identical, same
names), yet regeneration yields `{{0, 0, 0}}`, whose flattened scalar values
`[0, 0, 0]` differ from the original `[1, 2, 3]`: the grouped field map
(key `v`) and the generator's indexed lookups (`v_0`, …) do not meet. -/
theorem cds_c3_roundtrip_failure :
    flattenSF 100 boxStructs "box" "" "" [] = some ["v_0", "v_1", "v_2"] ∧
    generateFieldMap ["v_0", "v_1", "v_2"] ["1", "2", "3"] = [("v", .l ["1", "2", "3"])] ∧
    (match buildViewTree 100 boxStructs "box" with
     | some vt => genNI 100 vt (generateFieldMap ["v_0", "v_1", "v_2"] ["1", "2", "3"]) ""
     | none => .error .recursionErr) = .ok (.s "\x7b\x7b0, 0, 0\x7d\x7d") ∧
    (parseInitialization "\x7b\x7b0, 0, 0\x7d\x7d").map flattenInit = .ok ["0", "0", "0"] ∧
    ("0" : String) ≠ "1" := by
  refine ⟨rfl, rfl, rfl, rfl, by decide⟩

/-- **C8.** Missing-leaf leniency: rendering a view `Leaf` returns the field
map's value at the accumulated prefix when the prefix is a key, and the
literal `"0"` otherwise, and never fails (the fuel is a model artifact; the
leaf case uses one step and never recurses). -/
theorem cds_c8_leaf_leniency :
    (∀ (fuel : Nat) (t pref : String) (fm : List (String × FMVal)) (v : FMVal),
      lookupA fm pref = some v → genNI (fuel + 1) (.leaf t) fm pref = .ok v) ∧
    (∀ (fuel : Nat) (t pref : String) (fm : List (String × FMVal)),
      lookupA fm pref = none → genNI (fuel + 1) (.leaf t) fm pref = .ok (.s "0")) := by
  constructor
  · intro fuel t pref fm v h
    simp [genNI, h]
  · intro fuel t pref fm h
    simp [genNI, h]

/-- Witness for C8: a present key yields its stored value, an absent one the
zero literal. -/
theorem cds_c8_witness :
    genNI 1 (.leaf "int") [("x", .s "7")] "x" = .ok (.s "7") ∧
    genNI 1 (.leaf "int") [("x", .s "7")] "y" = .ok (.s "0") :=
  ⟨cds_c8_leaf_leniency.1 0 "int" "x" [("x", .s "7")] (.s "7") rfl,
   cds_c8_leaf_leniency.2 0 "int" "y" [("x", .s "7")] rfl⟩

/-- The flattened-leaf count (and success) of `flatten_struct_fields` is
independent of the source prefix, the output prefix and the mapping table:
those inputs only influence the generated names, never the recursion
structure. -/
theorem flattenLen_aux : ∀ (fuel : Nat) (structs : Structs),
    (∀ name sp1 op1 em1 sp2 op2 em2,
      (flattenSF fuel structs name sp1 op1 em1).map List.length =
      (flattenSF fuel structs name sp2 op2 em2).map List.length) ∧
    (∀ (fields : List Field) sp1 op1 em1 sp2 op2 em2,
      (flattenFlds fuel structs fields sp1 op1 em1).map List.length =
      (flattenFlds fuel structs fields sp2 op2 em2).map List.length) ∧
    (∀ ftype (dims : Option (List Nat)) src1 nop1 em1 src2 nop2 em2,
      (fieldContrib fuel structs em1 ftype dims src1 nop1).map List.length =
      (fieldContrib fuel structs em2 ftype dims src2 nop2).map List.length) ∧
    (∀ ftype em1 em2 (pairs1 pairs2 : List (String × String)),
      pairs1.length = pairs2.length →
      (flattenNested fuel structs ftype em1 pairs1).map List.length =
      (flattenNested fuel structs ftype em2 pairs2).map List.length) := by
  intro fuel
  induction fuel with
  | zero =>
      intro structs
      exact ⟨fun _ _ _ _ _ _ _ => rfl, fun _ _ _ _ _ _ _ => rfl,
             fun _ _ _ _ _ _ _ _ => rfl, fun _ _ _ _ _ _ => rfl⟩
  | succ fuel ih =>
      intro structs
      have ihS := (ih structs).1
      have ihF := (ih structs).2.1
      have ihC := (ih structs).2.2.1
      have ihN := (ih structs).2.2.2
      refine ⟨?_, ?_, ?_, ?_⟩
      · intro name sp1 op1 em1 sp2 op2 em2
        simp only [flattenSF]
        cases lookupA structs name with
        | none => rfl
        | some fields => exact ihF fields sp1 op1 em1 sp2 op2 em2
      · intro fields sp1 op1 em1 sp2 op2 em2
        match fields with
        | [] => rfl
        | (fname, ftype, dims) :: rest =>
            simp only [flattenFlds]
            have hc := ihC ftype dims
              (if sp1 = "" then fname else sp1 ++ "." ++ fname)
              (fieldOutputPrefix em1
                (normalizePath (if sp1 = "" then fname else sp1 ++ "." ++ fname)) fname op1) em1
              (if sp2 = "" then fname else sp2 ++ "." ++ fname)
              (fieldOutputPrefix em2
                (normalizePath (if sp2 = "" then fname else sp2 ++ "." ++ fname)) fname op2) em2
            have hr := ihF rest sp1 op1 em1 sp2 op2 em2
            cases e1 : fieldContrib fuel structs em1 ftype dims
                (if sp1 = "" then fname else sp1 ++ "." ++ fname)
                (fieldOutputPrefix em1
                  (normalizePath (if sp1 = "" then fname else sp1 ++ "." ++ fname)) fname op1) <;>
              cases e2 : fieldContrib fuel structs em2 ftype dims
                  (if sp2 = "" then fname else sp2 ++ "." ++ fname)
                  (fieldOutputPrefix em2
                    (normalizePath (if sp2 = "" then fname else sp2 ++ "." ++ fname)) fname op2) <;>
              cases e3 : flattenFlds fuel structs rest sp1 op1 em1 <;>
              cases e4 : flattenFlds fuel structs rest sp2 op2 em2 <;>
              simp_all
      · intro ftype dims src1 nop1 em1 src2 nop2 em2
        cases hty : (lookupA structs ftype).isSome with
        | false =>
            cases dims with
            | none => simp [fieldContrib, hty]
            | some ds => by_cases h1 : ds.length = 1 <;> simp [fieldContrib, hty, h1]
        | true =>
            cases dims with
            | none => simpa [fieldContrib, hty] using ihS ftype src1 nop1 em1 src2 nop2 em2
            | some ds =>
                by_cases h1 : ds.length = 1
                · simpa [fieldContrib, hty, h1] using
                    ihN ftype em1 em2 _ _ (by simp)
                · simpa [fieldContrib, hty, h1] using
                    ihN ftype em1 em2 _ _ (by simp)
      · intro ftype em1 em2 pairs1 pairs2 hlen
        match pairs1, pairs2, hlen with
        | [], [], _ => rfl
        | (s1, o1) :: r1, (s2, o2) :: r2, hlen =>
            simp only [flattenNested]
            have h1 := ihS ftype s1 o1 em1 s2 o2 em2
            have h2 := ihN ftype em1 em2 r1 r2 (by simpa using hlen)
            cases e1 : flattenSF fuel structs ftype s1 o1 em1 <;>
              cases e2 : flattenSF fuel structs ftype s2 o2 em2 <;>
              cases e3 : flattenNested fuel structs ftype em1 r1 <;>
              cases e4 : flattenNested fuel structs ftype em2 r2 <;>
              simp_all

/-- **C10.** Mapping-independence of flattening: with the same registry,
struct name and prefixes, any two mapping tables produce flat path lists of
the same length (and the same success/failure), expansion being driven only
by the registry's types and dims — so the `SchemaMismatch` count check is
unaffected by the mapping. -/
theorem cds_c10_mapping_independence (fuel : Nat) (structs : Structs)
    (name sp op : String) (em1 em2 : Mapping) :
    (flattenSF fuel structs name sp op em1).map List.length =
    (flattenSF fuel structs name sp op em2).map List.length :=
  (flattenLen_aux fuel structs).1 name sp op em1 sp op em2

/-- `Except.ok` on the left of a bind reduces away (the do-notation steps of
the embedded methods). -/
theorem exceptOkBind {ε α β : Type} (a : α) (f : α → Except ε β) :
    (Except.ok (ε := ε) a >>= f) = f a := rfl

/-- **C4.** SchemaMismatch rejection.  First half: in single-instance mode
(the parsed literal's first element is not itself a list), a flattened
literal strictly shorter than the flattened schema makes `process_structure`
return the empty string, with no partial output.  Second half: in batch
mode, an element failing the count check is skipped while the surrounding
elements are processed exactly as if it were absent. -/
theorem cds_c4_schema_mismatch :
    (∀ (fuel : Nat) (structs : Structs) (target : String) (em : Mapping) (vt : VTree)
       (initBlock : String) (parsed : PInit) (paths : List String),
      parseInitialization initBlock = .ok parsed →
      isBatch parsed = false →
      flattenSF fuel structs target "" "" em = some paths →
      (flattenInit parsed).length < paths.length →
      processStructure fuel structs target em vt initBlock = .ok (.s "")) ∧
    (∀ (fuel : Nat) (structs : Structs) (target : String) (em : Mapping) (vt : VTree)
       (pre : List PInit) (item : PInit) (post : List PInit),
      checkStructureType fuel structs target em (flattenInit item) = some false →
      processItems fuel structs target em vt (pre ++ item :: post) =
        processItems fuel structs target em vt (pre ++ post)) := by
  constructor
  · intro fuel structs target em vt initBlock parsed paths hparse hbatch hflat hlen
    match parsed, hbatch with
    | .scalar v, _ =>
        simp_all [processStructure, checkStructureType, hparse, hflat, exceptOkBind]
    | .blk [], _ =>
        simp_all [processStructure, checkStructureType, hparse, hflat, exceptOkBind]
    | .blk (.scalar v :: rest), _ =>
        simp_all [processStructure, checkStructureType, hparse, hflat, exceptOkBind]
    | .blk (.blk b :: rest), hbatch =>
        simp [isBatch] at hbatch
  · intro fuel structs target em vt pre item post hcheck
    induction pre with
    | nil => simp [processItems, hcheck]
    | cons p pre ih =>
        simp only [List.cons_append, processItems, List.append_eq]
        rw [ih]

/-- Witness for C4: against the `box` schema (3 leaves), the two-value
single-instance literal `{1, 2}` yields the empty string, and a batch
containing a one-value element processes exactly as without it. -/
theorem cds_c4_witness :
    processStructure 100 boxStructs "box" [] (VTree.leaf "int") "\x7b1, 2\x7d" = .ok (.s "") ∧
    processItems 100 boxStructs "box" [] (VTree.leaf "int")
        [PInit.blk [.scalar "1"], PInit.blk [.scalar "9", .scalar "8", .scalar "7"]] =
      processItems 100 boxStructs "box" [] (VTree.leaf "int")
        [PInit.blk [.scalar "9", .scalar "8", .scalar "7"]] :=
  ⟨cds_c4_schema_mismatch.1 100 boxStructs "box" [] (VTree.leaf "int") "\x7b1, 2\x7d"
      (PInit.blk [.scalar "1", .scalar "2"]) ["v_0", "v_1", "v_2"] rfl rfl rfl (by decide),
   cds_c4_schema_mismatch.2 100 boxStructs "box" [] (VTree.leaf "int") []
      (PInit.blk [.scalar "1"]) [PInit.blk [.scalar "9", .scalar "8", .scalar "7"]] rfl⟩

/-- A successful lookup needs a non-empty table. -/
theorem lookupA_isEmpty_false {α : Type} {em : List (String × α)} {k : String} {v : α}
    (h : lookupA em k = some v) : em.isEmpty = false := by
  cases em with
  | nil => simp [lookupA] at h
  | cons _ _ => rfl

/-- **C5.** Mapping override re-anchoring, stated on one primitive scalar
field as `flatten_struct_fields` processes it (the fuel offsets pay for the
two loop steps).  A hit on the normalized source path (first) or the bare
field name (second) makes the emitted path the override value verbatim, the
accumulated output prefix discarded; with no hit (third) the prefix
accumulates with `_`, the root emitting the bare name.  Fourth: the claim's
concrete schema `{ a { b; c; } }` with mapping `a.b: renamed` flattens to
exactly `[renamed, a_c]`. -/
theorem cds_c5_mapping_reanchor :
    (∀ (fuel : Nat) (structs : Structs) (fname ftype sp op : String) (em : Mapping) (v : String),
      lookupA structs ftype = none →
      lookupA em (normalizePath (if sp = "" then fname else sp ++ "." ++ fname)) = some v →
      flattenFlds (fuel + 2) structs [(fname, ftype, none)] sp op em = some [v]) ∧
    (∀ (fuel : Nat) (structs : Structs) (fname ftype sp op : String) (em : Mapping) (v : String),
      lookupA structs ftype = none →
      lookupA em (normalizePath (if sp = "" then fname else sp ++ "." ++ fname)) = none →
      lookupA em fname = some v →
      flattenFlds (fuel + 2) structs [(fname, ftype, none)] sp op em = some [v]) ∧
    (∀ (fuel : Nat) (structs : Structs) (fname ftype sp op : String) (em : Mapping),
      lookupA structs ftype = none →
      lookupA em (normalizePath (if sp = "" then fname else sp ++ "." ++ fname)) = none →
      lookupA em fname = none →
      flattenFlds (fuel + 2) structs [(fname, ftype, none)] sp op em =
        some [if op = "" then fname else op ++ "_" ++ fname]) ∧
    flattenSF 10 [("T", [("a", "A", none)]), ("A", [("b", "int", none), ("c", "int", none)])]
        "T" "" "" [("a.b", "renamed")] = some ["renamed", "a_c"] := by
  refine ⟨?_, ?_, ?_, rfl⟩
  · intro fuel structs fname ftype sp op em v hty hnorm
    simp [flattenFlds, fieldContrib, fieldOutputPrefix, hty, hnorm, lookupA_isEmpty_false hnorm]
  · intro fuel structs fname ftype sp op em v hty hnorm hname
    simp [flattenFlds, fieldContrib, fieldOutputPrefix, hty, hnorm, hname,
          lookupA_isEmpty_false hname]
  · intro fuel structs fname ftype sp op em hty hnorm hname
    cases hem : em.isEmpty <;>
      simp [flattenFlds, fieldContrib, fieldOutputPrefix, hty, hnorm, hname, hem]

/-- Witness for C5: a normalized-path override re-anchors the name across a
non-empty accumulated prefix; without an override the prefix accumulates. -/
theorem cds_c5_witness :
    flattenFlds 7 [] [("b", "int", none)] "a" "pfx" [("a.b", "renamed")] = some ["renamed"] ∧
    flattenFlds 7 [] [("b", "int", none)] "a" "pfx" [("zz", "other")] = some ["pfx_b"] :=
  ⟨cds_c5_mapping_reanchor.1 5 [] "b" "int" "a" "pfx" [("a.b", "renamed")] "renamed" rfl rfl,
   cds_c5_mapping_reanchor.2.2.1 5 [] "b" "int" "a" "pfx" [("zz", "other")] rfl rfl rfl⟩

/-- **C7, counterexample.** The claimed "fails if and only if some `}` is
not followed by an identifier" is false: in `typedef struct { [3]; } t;`
the closing `}` *is* followed by the identifier `t`, yet parsing fails —
after stripping the `[3]` dims group the field statement has no tokens left
and `field_tokens[-1]` raises `IndexError` (not the `MalformedSchema`
`ValueError`). -/
theorem cds_c7_counterexample :
    tokenize "typedef struct \x7b [3]; \x7d t;" =
      [⟨.ID, "typedef"⟩, ⟨.ID, "struct"⟩, ⟨.LBRACE, "\x7b"⟩, ⟨.LBRACKET, "["⟩,
       ⟨.NUMBER, "3"⟩, ⟨.RBRACKET, "]"⟩, ⟨.SEMICOLON, ";"⟩, ⟨.RBRACE, "\x7d"⟩,
       ⟨.ID, "t"⟩, ⟨.SEMICOLON, ";"⟩] ∧
    parseTypedefStructs (tokenize "typedef struct \x7b [3]; \x7d t;") = .error .indexErr ∧
    PyErr.indexErr ≠ PyErr.valueErr :=
  ⟨rfl, rfl, by decide⟩

/-- **C7, amended.** A field statement with *no* tokens (a bare `;`) is
skipped and the registry is produced (first part, the type name arbitrary);
a `}` followed by a non-identifier fails with the `MalformedSchema`
`ValueError` (second part); but additionally a field statement consisting
solely of `[number]` bracket groups — non-empty yet empty after dims
stripping — fails with `IndexError` (third part), so the "only if" of the
claim does not hold. -/
theorem cds_c7_amended :
    (∀ s : String,
      parseTypedefStructs
        [⟨.ID, "typedef"⟩, ⟨.ID, "struct"⟩, ⟨.LBRACE, "\x7b"⟩, ⟨.SEMICOLON, ";"⟩,
         ⟨.ID, "int"⟩, ⟨.ID, "x"⟩, ⟨.SEMICOLON, ";"⟩, ⟨.RBRACE, "\x7d"⟩,
         ⟨.ID, s⟩, ⟨.SEMICOLON, ";"⟩] = .ok [(s, [("x", "int", none)])]) ∧
    parseTypedefStructs
        [⟨.ID, "typedef"⟩, ⟨.ID, "struct"⟩, ⟨.LBRACE, "\x7b"⟩, ⟨.RBRACE, "\x7d"⟩,
         ⟨.NUMBER, "5"⟩, ⟨.SEMICOLON, ";"⟩] = .error .valueErr ∧
    (∀ s : String,
      parseTypedefStructs
        [⟨.ID, "typedef"⟩, ⟨.ID, "struct"⟩, ⟨.LBRACE, "\x7b"⟩, ⟨.LBRACKET, "["⟩,
         ⟨.NUMBER, "3"⟩, ⟨.RBRACKET, "]"⟩, ⟨.SEMICOLON, ";"⟩, ⟨.RBRACE, "\x7d"⟩,
         ⟨.ID, s⟩, ⟨.SEMICOLON, ";"⟩] = .error .indexErr) :=
  ⟨fun _ => rfl, rfl, fun _ => rfl⟩

/-- The field loop distributes over a split of the field list: the leading
fields contribute a prefix of the output, and the remaining fields are
processed with the fuel the leading steps consumed removed. -/
theorem flattenFlds_append : ∀ (xs : List Field) (fuel : Nat) (structs : Structs)
    (ys : List Field) (sp op : String) (em : Mapping) (l : List String),
    flattenFlds fuel structs (xs ++ ys) sp op em = some l →
    ∃ l1 l2, l = l1 ++ l2 ∧ flattenFlds (fuel - xs.length) structs ys sp op em = some l2 := by
  intro xs
  induction xs with
  | nil =>
      intro fuel structs ys sp op em l h
      exact ⟨[], l, rfl, h⟩
  | cons x xs ih =>
      intro fuel structs ys sp op em l h
      match fuel with
      | 0 => simp [flattenFlds] at h
      | fuel + 1 =>
          match x with
          | (fname, ftype, dims) =>
              simp only [List.cons_append, flattenFlds, List.append_eq] at h
              revert h
              cases e1 : fieldContrib fuel structs em ftype dims
                  (if sp = "" then fname else sp ++ "." ++ fname)
                  (fieldOutputPrefix em
                    (normalizePath (if sp = "" then fname else sp ++ "." ++ fname)) fname op) with
              | none => intro h; simp at h
              | some a =>
                  cases e2 : flattenFlds fuel structs (xs ++ ys) sp op em with
                  | none => intro h; simp at h
                  | some b =>
                      intro h
                      simp only [Option.some.injEq] at h
                      obtain ⟨l1, l2, hb, hys⟩ := ih fuel structs ys sp op em b e2
                      refine ⟨a ++ l1, l2, ?_, ?_⟩
                      · rw [← h, hb, List.append_assoc]
                      · simpa [Nat.succ_sub_succ] using hys

/-- With no matching mapping entry, the output prefix accumulates with an
underscore (the bare field name at the root). -/
theorem fieldOutputPrefix_no_override (em : Mapping) (norm fname op : String)
    (h1 : lookupA em norm = none) (h2 : lookupA em fname = none) :
    fieldOutputPrefix em norm fname op = if op = "" then fname else op ++ "_" ++ fname := by
  cases hem : em.isEmpty <;> simp [fieldOutputPrefix, h1, h2, hem]

/-- The character `str()` uses for one digit is a decimal digit. -/
theorem digitChar_isDigit {n : Nat} (h : n < 10) : isDigitC (digitChar n) = true := by
  interval_cases n <;> decide

/-- Every character `str(i)` prints is a decimal digit. -/
theorem pyNatStrF_all_digits : ∀ (fuel n : Nat), (pyNatStrF fuel n).data.all isDigitC = true := by
  intro fuel
  induction fuel with
  | zero => intro n; rfl
  | succ fuel ih =>
      intro n
      by_cases h : n < 10
      · simp [pyNatStrF, h, String.mk, digitChar_isDigit h]
      · have h10 : n % 10 < 10 := Nat.mod_lt _ (by decide)
        simp [pyNatStrF, h, String.data_append, List.all_append, ih (n / 10),
              String.mk, digitChar_isDigit h10]

/-- `str(i)` is never empty. -/
theorem pyNatStrF_ne_nil : ∀ (fuel n : Nat), (pyNatStrF (fuel + 1) n).data ≠ [] := by
  intro fuel n
  by_cases h : n < 10
  · simp [pyNatStrF, h, String.mk]
  · simp [pyNatStrF, h, String.data_append, String.mk]

/-- `l.flatMap (fun x => [f x])` is just `map`. -/
theorem flatMap_pure_map {α β : Type} (f : α → β) (l : List α) :
    (l.flatMap fun x => [f x]) = l.map f := by
  induction l with
  | nil => rfl
  | cons x xs ih => simp [List.flatMap_cons, ih]

/-- Underscore-stripping an index-tuple suffix whose first component is a
printed number keeps everything after the leading separator. -/
theorem lstrip_natStr_pair (i j : Nat) :
    lstripUnderscore ("" ++ "_" ++ pyNatStr i ++ "_" ++ pyNatStr j) =
      pyNatStr i ++ "_" ++ pyNatStr j := by
  apply String.ext
  have hne : (pyNatStr i).data ≠ [] := pyNatStrF_ne_nil i i
  have hdig : (pyNatStr i).data.all isDigitC = true := pyNatStrF_all_digits (i + 1) i
  simp only [lstripUnderscore, String.data_append]
  match e : (pyNatStr i).data, hne with
  | c :: cs, _ =>
      rw [e] at hdig
      simp only [List.all_cons, Bool.and_eq_true] at hdig
      have hcu : ¬(c = '_') := by
        intro hcu
        rw [hcu] at hdig
        simp [isDigitC, Char.isDigit] at hdig
      simp [String.mk, hcu]

/-- `gen_indices` on a two-dimensional dims list: row-major `i_j` pairs. -/
theorem genIndices_two (n m : Nat) :
    genIndices [n, m] "" =
      (List.range n).flatMap (fun i =>
        (List.range m).map (fun j => pyNatStr i ++ "_" ++ pyNatStr j)) := by
  simp only [genIndices]
  refine List.flatMap_congr ?_
  intro i _
  rw [← flatMap_pure_map (fun j => pyNatStr i ++ "_" ++ pyNatStr j) (List.range m)]
  refine List.flatMap_congr ?_
  intro j _
  rw [lstrip_natStr_pair]

/-- Unfolding one primitive array field at the head of the field loop:
its block of indexed paths, then the rest. -/
theorem flattenFlds_cons_prim (k : Nat) (structs : Structs) (fname ftype : String)
    (ds : List Nat) (rest : List Field) (sp op : String) (em : Mapping) (l : List String)
    (h : flattenFlds (k + 2) structs ((fname, ftype, some ds) :: rest) sp op em = some l)
    (hty : lookupA structs ftype = none) :
    ∃ b, flattenFlds (k + 1) structs rest sp op em = some b ∧
      l = (if ds.length = 1 then
            (List.range (ds.headD 0)).map (fun i =>
              fieldOutputPrefix em
                (normalizePath (if sp = "" then fname else sp ++ "." ++ fname)) fname op
                ++ "_" ++ pyNatStr i)
          else
            (genIndices ds "").map (fun idx =>
              fieldOutputPrefix em
                (normalizePath (if sp = "" then fname else sp ++ "." ++ fname)) fname op
                ++ "_" ++ idx)) ++ b := by
  rw [flattenFlds] at h
  revert h
  cases e3 : flattenFlds (k + 1) structs rest sp op em with
  | none =>
      intro h
      by_cases h1 : ds.length = 1 <;> simp [fieldContrib, hty, h1] at h
  | some b =>
      intro h
      refine ⟨b, rfl, ?_⟩
      by_cases h1 : ds.length = 1 <;>
        simp_all [fieldContrib, hty, h1]

/-- **C6.** Array flattening order.  A primitive root-level field `name`
with dims `[n]` and no mapping override contributes exactly the `n`
consecutive paths `name_0 … name_{n-1}`, in that order, to the flattened
result (first part); with dims `[n, m]` it contributes exactly the `n·m`
paths `name_0_0, name_0_1, …, name_0_{m-1}, name_1_0, …` in row-major
order, the outer dimension varying slowest (second part). -/
theorem cds_c6_array_flattening :
    (∀ (fuel : Nat) (structs : Structs) (S : String) (fields pre post : List Field)
       (name t : String) (n : Nat) (em : Mapping) (L : List String),
      lookupA structs S = some fields →
      fields = pre ++ (name, t, some [n]) :: post →
      lookupA structs t = none →
      lookupA em (normalizePath name) = none →
      lookupA em name = none →
      flattenSF fuel structs S "" "" em = some L →
      ∃ l1 l2, L = l1 ++ ((List.range n).map (fun i => name ++ "_" ++ pyNatStr i)) ++ l2) ∧
    (∀ (fuel : Nat) (structs : Structs) (S : String) (fields pre post : List Field)
       (name t : String) (n m : Nat) (em : Mapping) (L : List String),
      lookupA structs S = some fields →
      fields = pre ++ (name, t, some [n, m]) :: post →
      lookupA structs t = none →
      lookupA em (normalizePath name) = none →
      lookupA em name = none →
      flattenSF fuel structs S "" "" em = some L →
      ∃ l1 l2, L = l1 ++
        ((List.range n).flatMap (fun i =>
          (List.range m).map (fun j => name ++ "_" ++ pyNatStr i ++ "_" ++ pyNatStr j))) ++ l2) := by
  constructor
  · intro fuel structs S fields pre post name t n em L hS hfields hty hnorm hname hflat
    match fuel with
    | 0 => simp [flattenSF] at hflat
    | fuel + 1 =>
        rw [flattenSF, hS] at hflat
        subst hfields
        obtain ⟨l1, l2, hL, h2⟩ := flattenFlds_append pre fuel structs _ "" "" em L hflat
        have hop : fieldOutputPrefix em (normalizePath name) name "" = name := by
          simpa using fieldOutputPrefix_no_override em (normalizePath name) name "" hnorm hname
        rcases hk : fuel - pre.length with _ | k
        · rw [hk] at h2; simp [flattenFlds] at h2
        · rw [hk] at h2
          rcases k with _ | k
          · simp [flattenFlds, fieldContrib] at h2
          · obtain ⟨b, _, hblock⟩ := flattenFlds_cons_prim k structs name t [n] post "" "" em l2 h2 hty
            refine ⟨l1, b, ?_⟩
            simp only [List.length_cons, List.length_nil, Nat.zero_add, if_pos,
                       List.headD_cons, hop, if_pos rfl] at hblock
            rw [hL, hblock, List.append_assoc]
  · intro fuel structs S fields pre post name t n m em L hS hfields hty hnorm hname hflat
    match fuel with
    | 0 => simp [flattenSF] at hflat
    | fuel + 1 =>
        rw [flattenSF, hS] at hflat
        subst hfields
        obtain ⟨l1, l2, hL, h2⟩ := flattenFlds_append pre fuel structs _ "" "" em L hflat
        have hop : fieldOutputPrefix em (normalizePath name) name "" = name := by
          simpa using fieldOutputPrefix_no_override em (normalizePath name) name "" hnorm hname
        rcases hk : fuel - pre.length with _ | k
        · rw [hk] at h2; simp [flattenFlds] at h2
        · rw [hk] at h2
          rcases k with _ | k
          · simp [flattenFlds, fieldContrib] at h2
          · obtain ⟨b, _, hblock⟩ :=
              flattenFlds_cons_prim k structs name t [n, m] post "" "" em l2 h2 hty
            refine ⟨l1, b, ?_⟩
            have hlen2 : ¬(([n, m] : List Nat).length = 1) := by simp
            rw [if_neg hlen2] at hblock
            simp only [hop] at hblock
            rw [hL, hblock, genIndices_two, List.append_assoc]
            congr 2
            rw [List.map_flatMap]
            refine List.flatMap_congr ?_
            intro i _
            rw [List.map_map]
            refine List.map_congr_left ?_
            intro j _
            simp [Function.comp, String.append_assoc, hop]

/-- Witness for C6: in `typedef struct { int a[2]; int b[2][2]; } s2;` the
flattened list `[a_0, a_1, b_0_0, b_0_1, b_1_0, b_1_1]` contains `a`'s
1-D block and `b`'s row-major 2-D block consecutively. -/
theorem cds_c6_witness :
    (∃ l1 l2, ["a_0", "a_1", "b_0_0", "b_0_1", "b_1_0", "b_1_1"] =
      l1 ++ ((List.range 2).map (fun i => "a" ++ "_" ++ pyNatStr i)) ++ l2) ∧
    (∃ l1 l2, ["a_0", "a_1", "b_0_0", "b_0_1", "b_1_0", "b_1_1"] =
      l1 ++ ((List.range 2).flatMap (fun i =>
        (List.range 2).map (fun j => "b" ++ "_" ++ pyNatStr i ++ "_" ++ pyNatStr j))) ++ l2) :=
  ⟨cds_c6_array_flattening.1 20 [("s2", [("a", "int", some [2]), ("b", "int", some [2, 2])])]
      "s2" [("a", "int", some [2]), ("b", "int", some [2, 2])]
      [] [("b", "int", some [2, 2])] "a" "int" 2 []
      ["a_0", "a_1", "b_0_0", "b_0_1", "b_1_0", "b_1_1"] rfl rfl rfl rfl rfl rfl,
   cds_c6_array_flattening.2 20 [("s2", [("a", "int", some [2]), ("b", "int", some [2, 2])])]
      "s2" [("a", "int", some [2]), ("b", "int", some [2, 2])]
      [("a", "int", some [2])] [] "b" "int" 2 2 []
      ["a_0", "a_1", "b_0_0", "b_0_1", "b_1_0", "b_1_1"] rfl rfl rfl rfl rfl rfl⟩

/-! ## Dictionary lemmas for the field-map analysis -/

theorem lookupA_upsert {α : Type} (r : List (String × α)) (k k' : String) (v : α) :
    lookupA (upsert r k v) k' = if k = k' then some v else lookupA r k' := by
  induction r with
  | nil => simp [upsert, lookupA]
  | cons p rest ih =>
      obtain ⟨a, w⟩ := p
      by_cases hak : a = k
      · subst hak
        by_cases h : a = k' <;> simp [upsert, lookupA, h]
      · by_cases hak' : a = k'
        · subst hak'
          have hkk' : ¬(k = a) := fun h => hak h.symm
          simp [upsert, lookupA, hak, hkk']
        · simp [upsert, lookupA, hak, hak', ih]

theorem lookupA_upsertAppend (t : List (String × List String)) (k k' : String) (v : String) :
    lookupA (upsertAppend t k v) k' =
      if k = k' then some (((lookupA t k).getD []) ++ [v]) else lookupA t k' := by
  induction t with
  | nil => simp [upsertAppend, lookupA]
  | cons p rest ih =>
      obtain ⟨a, w⟩ := p
      by_cases hak : a = k
      · subst hak
        by_cases h : a = k' <;> simp [upsertAppend, lookupA, h]
      · by_cases hak' : a = k'
        · subst hak'
          have hkk' : ¬(k = a) := fun h => hak h.symm
          simp [upsertAppend, lookupA, hak, hkk']
        · simp only [upsertAppend, if_neg hak, lookupA, if_neg hak']
          rw [ih]

theorem lookupA_eq_none_iff {α : Type} (t : List (String × α)) (k : String) :
    lookupA t k = none ↔ k ∉ t.map Prod.fst := by
  induction t with
  | nil => simp [lookupA]
  | cons p rest ih =>
      obtain ⟨a, w⟩ := p
      by_cases h : a = k
      · subst h
        simp [lookupA]
      · have h' : ¬(k = a) := fun hh => h hh.symm
        simp [lookupA, h, h', ih]

/-- `upsertAppend` keeps the key list, except that a fresh key is appended. -/
theorem upsertAppend_keys (t : List (String × List String)) (k : String) (v : String) :
    (upsertAppend t k v).map Prod.fst =
      if k ∈ t.map Prod.fst then t.map Prod.fst else t.map Prod.fst ++ [k] := by
  induction t with
  | nil => simp [upsertAppend]
  | cons p rest ih =>
      obtain ⟨a, w⟩ := p
      by_cases h : a = k
      · subst h
        simp [upsertAppend]
      · have h' : ¬(k = a) := fun hh => h hh.symm
        by_cases hm : k ∈ rest.map Prod.fst <;>
          simp [upsertAppend, h, h', hm, ih]

theorem upsertAppend_keys_nodup (t : List (String × List String)) (k : String) (v : String)
    (hnd : (t.map Prod.fst).Nodup) : ((upsertAppend t k v).map Prod.fst).Nodup := by
  rw [upsertAppend_keys]
  by_cases hm : k ∈ t.map Prod.fst
  · simpa [hm] using hnd
  · simp only [hm, if_neg, Bool.false_eq_true]
    simp [List.nodup_append, hnd, hm]

/-- `(a :: l).getLast?` in terms of `l.getLast?`. -/
theorem getLast?_cons_getD {α : Type} (a : α) (l : List α) :
    (a :: l).getLast? = some (l.getLast?.getD a) := by
  induction l generalizing a with
  | nil => rfl
  | cons b l ih => rw [List.getLast?_cons_cons, ih b]; simp [ih b]

/-! ## The zipping loop of `generate_field_map`, characterized -/

/-- The per-pair contribution of a name to the grouped values of base `k`. -/
def groupAdd (k : String) (p : String × String) : Option String :=
  match suffixBase p.1 with
  | some r => if r.1 = k then some p.2 else none
  | none => none

/-- The per-pair contribution of a name to the scalar entry `k`. -/
def scalarWrite (k : String) (p : String × String) : Option String :=
  match suffixBase p.1 with
  | some _ => none
  | none => if p.1 = k then some p.2 else none

/-- The loop's `temp` component: the grouped values of key `k`, in encounter
order, appended after whatever the incoming `temp` held under `k`. -/
theorem gfmLoop_temp_lookup : ∀ (names values : List String)
    (res : List (String × FMVal)) (temp : List (String × List String)) (k : String),
    lookupA (gfmLoop names values res temp).2 k =
      (if ((names.zip values).filterMap (groupAdd k)) = []
       then lookupA temp k
       else some (((lookupA temp k).getD []) ++ (names.zip values).filterMap (groupAdd k))) := by
  intro names
  induction names with
  | nil => intro values res temp k; cases values <;> simp [gfmLoop]
  | cons nm ns ih =>
      intro values res temp k
      cases values with
      | nil => simp [gfmLoop]
      | cons v vs =>
          have hzc : ((nm :: ns).zip (v :: vs)) = (nm, v) :: ns.zip vs := rfl
          cases hsb : suffixBase nm with
          | none =>
              have hga : groupAdd k (nm, v) = none := by simp [groupAdd, hsb]
              rw [gfmLoop, hsb, ih vs (upsert res nm (.s v)) temp k, hzc,
                  List.filterMap_cons_none hga]
          | some r =>
              obtain ⟨b, d⟩ := r
              by_cases hbk : b = k
              · subst hbk
                have hga : groupAdd b (nm, v) = some v := by simp [groupAdd, hsb]
                rw [gfmLoop, hsb, ih vs res (upsertAppend temp b v) b, hzc,
                    List.filterMap_cons_some hga]
                by_cases htl : (List.filterMap (groupAdd b) (ns.zip vs)) = []
                · simp [htl, lookupA_upsertAppend]
                · simp [htl, lookupA_upsertAppend, List.append_assoc]
              · have hga : groupAdd k (nm, v) = none := by simp [groupAdd, hsb, hbk]
                rw [gfmLoop, hsb, ih vs res (upsertAppend temp b v) k, hzc,
                    List.filterMap_cons_none hga]
                rw [lookupA_upsertAppend]
                simp [hbk]

/-- The loop's scalar component: the *last* scalar write to `k` wins,
falling back to the incoming `result`. -/
theorem gfmLoop_result_lookup : ∀ (names values : List String)
    (res : List (String × FMVal)) (temp : List (String × List String)) (k : String),
    lookupA (gfmLoop names values res temp).1 k =
      (match ((names.zip values).filterMap (scalarWrite k)).getLast? with
       | some v => some (.s v)
       | none => lookupA res k) := by
  intro names
  induction names with
  | nil => intro values res temp k; cases values <;> simp [gfmLoop]
  | cons nm ns ih =>
      intro values res temp k
      cases values with
      | nil => simp [gfmLoop]
      | cons v vs =>
          have hzc : ((nm :: ns).zip (v :: vs)) = (nm, v) :: ns.zip vs := rfl
          cases hsb : suffixBase nm with
          | some r =>
              have hsw : scalarWrite k (nm, v) = none := by simp [scalarWrite, hsb]
              rw [gfmLoop, hsb, ih vs res (upsertAppend temp r.1 v) k, hzc,
                  List.filterMap_cons_none hsw]
          | none =>
              by_cases hnk : nm = k
              · subst hnk
                have hsw : scalarWrite nm (nm, v) = some v := by simp [scalarWrite, hsb]
                rw [gfmLoop, hsb, ih vs (upsert res nm (.s v)) temp nm, hzc,
                    List.filterMap_cons_some hsw]
                rw [getLast?_cons_getD]
                cases hlast : (List.filterMap (scalarWrite nm) (ns.zip vs)).getLast? with
                | some w => simp [hlast]
                | none => simp [hlast, lookupA_upsert]
              · have hsw : scalarWrite k (nm, v) = none := by simp [scalarWrite, hsb, hnk]
                rw [gfmLoop, hsb, ih vs (upsert res nm (.s v)) temp k, hzc,
                    List.filterMap_cons_none hsw]
                rw [lookupA_upsert]
                have h' : ¬(nm = k) := hnk
                simp [h']

/-- The loop's `temp` keys stay duplicate-free. -/
theorem gfmLoop_temp_nodup : ∀ (names values : List String)
    (res : List (String × FMVal)) (temp : List (String × List String)),
    ((temp.map Prod.fst).Nodup) → (((gfmLoop names values res temp).2.map Prod.fst).Nodup) := by
  intro names
  induction names with
  | nil => intro values res temp h; cases values <;> simpa [gfmLoop] using h
  | cons nm ns ih =>
      intro values res temp h
      cases values with
      | nil => simpa [gfmLoop] using h
      | cons v vs =>
          cases hsb : suffixBase nm with
          | none =>
              rw [gfmLoop, hsb]
              exact ih vs (upsert res nm (.s v)) temp h
          | some r =>
              rw [gfmLoop, hsb]
              exact ih vs res (upsertAppend temp r.1 v) (upsertAppend_keys_nodup temp r.1 v h)

/-- Folding the grouped bases over the scalar map: a grouped key wins (keys
unique), anything else falls through. -/
theorem lookupA_foldl_upsert_l : ∀ (temp : List (String × List String))
    (res : List (String × FMVal)) (k : String),
    ((temp.map Prod.fst).Nodup) →
    lookupA (temp.foldl (fun r p => upsert r p.1 (.l p.2)) res) k =
      (match lookupA temp k with
       | some vs => some (.l vs)
       | none => lookupA res k) := by
  intro temp
  induction temp with
  | nil => intro res k _; simp [lookupA]
  | cons p rest ih =>
      intro res k hnd
      obtain ⟨b, vs⟩ := p
      simp only [List.map_cons, List.nodup_cons] at hnd
      rw [List.foldl_cons, ih (upsert res b (.l vs)) k hnd.2]
      by_cases hkb : b = k
      · subst hkb
        have hnb : lookupA rest b = none := (lookupA_eq_none_iff rest b).mpr hnd.1
        simp [lookupA, hnb, lookupA_upsert]
      · have h' : ¬(k = b) := fun hh => hkb hh.symm
        simp [lookupA, hkb, lookupA_upsert]

/-! ## The suffix regex on constructed array names -/

theorem strMkData (s : String) : String.mk s.data = s := rfl

theorem pyNatStr_ne_nil (i : Nat) : (pyNatStr i).data ≠ [] := pyNatStrF_ne_nil i i

theorem pyNatStr_all_digits (i : Nat) : (pyNatStr i).data.all isDigitC = true :=
  pyNatStrF_all_digits (i + 1) i

/-- Scanning `prefix ++ "_" ++ digits`: the only valid split is at the final
separator, because every earlier remainder still contains that non-digit
`_`; newline-free prefixes keep the scan alive. -/
theorem suffixBaseAux_split (ds : List Char) (hds : ds ≠ []) (hdig : ds.all isDigitC = true) :
    ∀ (bs : List Char) (acc : List Char), (bs = [] → acc ≠ []) → '\n' ∉ bs →
      suffixBaseAux acc (bs ++ '_' :: ds) =
        some (String.mk (acc.reverse ++ bs), String.mk ds) := by
  intro bs
  induction bs with
  | nil =>
      intro acc hacc _
      have hne : acc ≠ [] := hacc rfl
      have h1 : acc.isEmpty = false := by
        cases acc with
        | nil => exact absurd rfl hne
        | cons _ _ => rfl
      have h2 : ds.isEmpty = false := by
        cases ds with
        | nil => exact absurd rfl hds
        | cons _ _ => rfl
      simp [suffixBaseAux, h1, h2, hdig]
  | cons c bs ih =>
      intro acc hacc hnl
      have hnl' : '\n' ∉ bs := fun h => hnl (List.mem_cons_of_mem _ h)
      have hcnl : ¬(c = '\n') := fun h => hnl (h ▸ List.mem_cons_self _ _)
      have hstep : List.cons c bs ++ '_' :: ds = c :: (bs ++ '_' :: ds) := rfl
      by_cases hcu : c = '_'
      · have hu : isDigitC '_' = false := by decide
        have hall : ((bs ++ '_' :: ds).all isDigitC) = false := by
          simp [List.all_append, List.all_cons, hu]
        rw [hstep, suffixBaseAux, if_pos hcu, hall]
        simp only [Bool.and_false, Bool.false_eq_true, if_neg]
        rw [ih (c :: acc) (by simp) hnl']
        simp [hcu, List.append_assoc]
      · rw [hstep, suffixBaseAux, if_neg hcu, if_neg hcnl]
        rw [ih (c :: acc) (by simp) hnl']
        simp [List.append_assoc]

/-- `re.match(r'(.+?)_(\d+)$')` on `base ++ "_" ++ str(i)`: captures exactly
`(base, str(i))` when the base is non-empty and newline-free. -/
theorem suffixBase_append_natStr (base : String) (i : Nat)
    (hb : base.data ≠ []) (hnl : '\n' ∉ base.data) :
    suffixBase (base ++ "_" ++ pyNatStr i) = some (base, pyNatStr i) := by
  have hdata : (base ++ "_" ++ pyNatStr i).data = base.data ++ '_' :: (pyNatStr i).data := by
    simp [String.data_append]
  have hds := pyNatStr_ne_nil i
  have hdig := pyNatStr_all_digits i
  obtain ⟨c, hgl⟩ : ∃ c, (pyNatStr i).data.getLast? = some c := by
    cases hgl : (pyNatStr i).data.getLast? with
    | none => exact absurd (by simpa using hgl) hds
    | some c => exact ⟨c, rfl⟩
  have hcd : isDigitC c = true := by
    have hmem : c ∈ (pyNatStr i).data := by
      have heq := List.getLast?_eq_getLast ((pyNatStr i).data) (by simpa using hds)
      rw [heq] at hgl
      simp only [Option.some.injEq] at hgl
      rw [← hgl]
      exact List.getLast_mem _
    exact List.all_eq_true.mp hdig c hmem
  have hcnl : ¬(c = '\n') := by
    intro h
    rw [h] at hcd
    simp [isDigitC, Char.isDigit] at hcd
  have hcore : (base.data ++ '_' :: (pyNatStr i).data).getLast? = some c := by
    rw [List.getLast?_append, getLast?_cons_getD, hgl]
    simp [Option.or]
  unfold suffixBase
  rw [hdata, hcore]
  rw [if_neg (by simp [hcnl])]
  rw [suffixBaseAux_split (pyNatStr i).data hds hdig base.data []
        (fun h => absurd h hb) hnl]
  simp [strMkData]

/-- A string is never equal to itself extended by `_` and a printed index. -/
theorem ne_append_underscore (base : String) (i : Nat) :
    ¬(base = base ++ "_" ++ pyNatStr i) := by
  intro h
  have := congrArg (fun s : String => s.data.length) h
  simp [String.data_append] at this

/-- Indexed block names all contribute their paired value to base `k`. -/
theorem filterMap_groupAdd_block (base : String)
    (hb : base.data ≠ []) (hnl : '\n' ∉ base.data) :
    ∀ (ix : List Nat) (vbl : List String), ix.length = vbl.length →
    ((ix.map (fun i => base ++ "_" ++ pyNatStr i)).zip vbl).filterMap (groupAdd base) = vbl := by
  intro ix
  induction ix with
  | nil =>
      intro vbl hlen
      cases vbl with
      | nil => rfl
      | cons _ _ => simp at hlen
  | cons i ix ih =>
      intro vbl hlen
      cases vbl with
      | nil => simp at hlen
      | cons v vbl =>
          have hga : groupAdd base (base ++ "_" ++ pyNatStr i, v) = some v := by
            simp [groupAdd, suffixBase_append_natStr base i hb hnl]
          simp only [List.map_cons, List.zip_cons_cons, List.filterMap_cons_some hga]
          rw [ih vbl (by simpa using hlen)]

/-- Indexed block names contribute nothing to any other key. -/
theorem filterMap_groupAdd_block_none (base k : String)
    (hb : base.data ≠ []) (hnl : '\n' ∉ base.data) (hne : ¬(base = k)) :
    ∀ (ix : List Nat) (vbl : List String),
    ((ix.map (fun i => base ++ "_" ++ pyNatStr i)).zip vbl).filterMap (groupAdd k) = [] := by
  intro ix vbl
  refine List.filterMap_eq_nil.mpr ?_
  intro p hp
  obtain ⟨x, v⟩ := p
  obtain ⟨hx, _⟩ := List.of_mem_zip hp
  obtain ⟨i, _, hxi⟩ := List.mem_map.mp hx
  subst hxi
  simp [groupAdd, suffixBase_append_natStr base i hb hnl, hne]

/-- Indexed block names never write a scalar entry. -/
theorem filterMap_scalarWrite_block_none (base k : String)
    (hb : base.data ≠ []) (hnl : '\n' ∉ base.data) :
    ∀ (ix : List Nat) (vbl : List String),
    ((ix.map (fun i => base ++ "_" ++ pyNatStr i)).zip vbl).filterMap (scalarWrite k) = [] := by
  intro ix vbl
  refine List.filterMap_eq_nil.mpr ?_
  intro p hp
  obtain ⟨x, v⟩ := p
  obtain ⟨hx, _⟩ := List.of_mem_zip hp
  obtain ⟨i, _, hxi⟩ := List.mem_map.mp hx
  subst hxi
  simp [scalarWrite, suffixBase_append_natStr base i hb hnl]

/-- **C9, counterexample.** The claim "the map contains none of
`base_0 … base_{n-1}` as keys" fails on a legal schema: with fields
`int base[2]; int base_0_0;`, the flattened names are
`[base_0, base_1, base_0_0]`, and `generate_field_map` strips the sibling
`base_0_0` to the base `base_0`, so the direct lookup of the indexed key
`base_0` *succeeds* (bound to the sibling's value). -/
theorem cds_c9_counterexample :
    flattenSF 100 [("t", [("base", "int", some [2]), ("base_0_0", "int", none)])]
        "t" "" "" [] = some ["base_0", "base_1", "base_0_0"] ∧
    lookupA (generateFieldMap ["base_0", "base_1", "base_0_0"] ["1", "2", "3"]) "base_0" =
      some (.l ["3"]) :=
  ⟨rfl, rfl⟩

/-- **C9, amended.** The grouping invariant holds once no *other* flattened
name's stripped base collides with `base` or with one of its indexed names:
for names `pre ++ [base_0 … base_{n-1}] ++ post` (n ≥ 1) with an equal-length
value list, the built map binds `base` to exactly the n block values, in
order, and binds none of the indexed names `base_i` — so a direct indexed
lookup fails for such array leaves. -/
theorem cds_c9_amended (base : String) (n : Nat) (pre post vpre vblock vpost : List String)
    (hb : base.data ≠ []) (hnl : '\n' ∉ base.data) (hn : 0 < n)
    (hlpre : pre.length = vpre.length) (hlblock : vblock.length = n)
    (hlpost : post.length = vpost.length)
    (hside : ∀ x ∈ pre ++ post, ∀ r : String × String, suffixBase x = some r →
      ¬(r.1 = base) ∧ ∀ i, i < n → ¬(r.1 = base ++ "_" ++ pyNatStr i)) :
    lookupA (generateFieldMap
        (pre ++ (List.range n).map (fun i => base ++ "_" ++ pyNatStr i) ++ post)
        (vpre ++ vblock ++ vpost)) base = some (.l vblock) ∧
    ∀ i, i < n → lookupA (generateFieldMap
        (pre ++ (List.range n).map (fun i => base ++ "_" ++ pyNatStr i) ++ post)
        (vpre ++ vblock ++ vpost)) (base ++ "_" ++ pyNatStr i) = none := by
  have hblocklen : ((List.range n).map (fun i => base ++ "_" ++ pyNatStr i)).length = n := by
    simp
  have hgfm : ∀ k, lookupA (generateFieldMap
      (pre ++ (List.range n).map (fun i => base ++ "_" ++ pyNatStr i) ++ post)
      (vpre ++ vblock ++ vpost)) k =
      (match lookupA (gfmLoop
          (pre ++ (List.range n).map (fun i => base ++ "_" ++ pyNatStr i) ++ post)
          (vpre ++ vblock ++ vpost) [] []).2 k with
       | some vs => some (.l vs)
       | none => lookupA (gfmLoop
          (pre ++ (List.range n).map (fun i => base ++ "_" ++ pyNatStr i) ++ post)
          (vpre ++ vblock ++ vpost) [] []).1 k) := by
    intro k
    exact lookupA_foldl_upsert_l _ _ k
      (gfmLoop_temp_nodup _ _ [] [] (by simp))
  have hzip : ((pre ++ (List.range n).map (fun i => base ++ "_" ++ pyNatStr i) ++ post).zip
      (vpre ++ vblock ++ vpost)) =
      pre.zip vpre ++ ((List.range n).map (fun i => base ++ "_" ++ pyNatStr i)).zip vblock ++
      post.zip vpost := by
    rw [List.zip_append (by simp [hlpre, hblocklen, hlblock]), List.zip_append hlpre]
  have hsidemem : ∀ x ∈ pre.zip vpre ++ post.zip vpost, ∀ r : String × String,
      suffixBase (Prod.fst x) = some r →
      ¬(r.1 = base) ∧ ∀ i, i < n → ¬(r.1 = base ++ "_" ++ pyNatStr i) := by
    intro p hp r hr
    rcases List.mem_append.mp hp with h | h
    · exact hside p.1 (List.mem_append_left _ (List.of_mem_zip h).1) r hr
    · exact hside p.1 (List.mem_append_right _ (List.of_mem_zip h).1) r hr
  constructor
  · rw [hgfm base, gfmLoop_temp_lookup]
    have haddseq : (((pre ++ (List.range n).map (fun i => base ++ "_" ++ pyNatStr i) ++ post).zip
        (vpre ++ vblock ++ vpost)).filterMap (groupAdd base)) = vblock := by
      rw [hzip, List.filterMap_append, List.filterMap_append]
      rw [filterMap_groupAdd_block base hb hnl (List.range n) vblock
            (by simp [hlblock])]
      have h1 : (pre.zip vpre).filterMap (groupAdd base) = [] := by
        refine List.filterMap_eq_nil.mpr ?_
        intro p hp
        cases hsb : suffixBase p.1 with
        | none => simp [groupAdd, hsb]
        | some r =>
            have := (hsidemem p (List.mem_append_left _ hp) r hsb).1
            simp [groupAdd, hsb, fun hh : r.1 = base => this hh]
      have h3 : (post.zip vpost).filterMap (groupAdd base) = [] := by
        refine List.filterMap_eq_nil.mpr ?_
        intro p hp
        cases hsb : suffixBase p.1 with
        | none => simp [groupAdd, hsb]
        | some r =>
            have := (hsidemem p (List.mem_append_right _ hp) r hsb).1
            simp [groupAdd, hsb, fun hh : r.1 = base => this hh]
      rw [h1, h3]
      simp
    rw [haddseq]
    have hvb : ¬(vblock = []) := by
      intro h
      rw [h] at hlblock
      simp at hlblock
      omega
    rw [if_neg hvb]
    simp [lookupA]
  · intro i hi
    have hnei : ¬(base = base ++ "_" ++ pyNatStr i) := ne_append_underscore base i
    rw [hgfm (base ++ "_" ++ pyNatStr i), gfmLoop_temp_lookup]
    have haddseq : (((pre ++ (List.range n).map (fun j => base ++ "_" ++ pyNatStr j) ++ post).zip
        (vpre ++ vblock ++ vpost)).filterMap (groupAdd (base ++ "_" ++ pyNatStr i))) = [] := by
      rw [hzip, List.filterMap_append, List.filterMap_append]
      rw [filterMap_groupAdd_block_none base (base ++ "_" ++ pyNatStr i) hb hnl hnei
            (List.range n) vblock]
      have h1 : (pre.zip vpre).filterMap (groupAdd (base ++ "_" ++ pyNatStr i)) = [] := by
        refine List.filterMap_eq_nil.mpr ?_
        intro p hp
        cases hsb : suffixBase p.1 with
        | none => simp [groupAdd, hsb]
        | some r =>
            have := (hsidemem p (List.mem_append_left _ hp) r hsb).2 i hi
            simp [groupAdd, hsb, fun hh : r.1 = base ++ "_" ++ pyNatStr i => this hh]
      have h3 : (post.zip vpost).filterMap (groupAdd (base ++ "_" ++ pyNatStr i)) = [] := by
        refine List.filterMap_eq_nil.mpr ?_
        intro p hp
        cases hsb : suffixBase p.1 with
        | none => simp [groupAdd, hsb]
        | some r =>
            have := (hsidemem p (List.mem_append_right _ hp) r hsb).2 i hi
            simp [groupAdd, hsb, fun hh : r.1 = base ++ "_" ++ pyNatStr i => this hh]
      rw [h1, h3]
      simp
    rw [haddseq]
    simp only [if_pos rfl, lookupA]
    rw [gfmLoop_result_lookup]
    have hwrites : (((pre ++ (List.range n).map (fun j => base ++ "_" ++ pyNatStr j) ++ post).zip
        (vpre ++ vblock ++ vpost)).filterMap (scalarWrite (base ++ "_" ++ pyNatStr i))) = [] := by
      rw [hzip, List.filterMap_append, List.filterMap_append]
      rw [filterMap_scalarWrite_block_none base (base ++ "_" ++ pyNatStr i) hb hnl
            (List.range n) vblock]
      have hscal : ∀ (p : String × String), (∀ r : String × String,
          suffixBase p.1 = some r → True) → scalarWrite (base ++ "_" ++ pyNatStr i) p = none ∨
          suffixBase p.1 = none := by
        intro p _
        cases hsb : suffixBase p.1 with
        | none => exact Or.inr rfl
        | some r => exact Or.inl (by simp [scalarWrite, hsb])
      have h1 : (pre.zip vpre).filterMap (scalarWrite (base ++ "_" ++ pyNatStr i)) = [] := by
        refine List.filterMap_eq_nil.mpr ?_
        intro p _
        cases hsb : suffixBase p.1 with
        | some r => simp [scalarWrite, hsb]
        | none =>
            have hpne : ¬(p.1 = base ++ "_" ++ pyNatStr i) := by
              intro hh
              rw [hh, suffixBase_append_natStr base i hb hnl] at hsb
              exact Option.noConfusion hsb
            simp [scalarWrite, hsb, hpne]
      have h3 : (post.zip vpost).filterMap (scalarWrite (base ++ "_" ++ pyNatStr i)) = [] := by
        refine List.filterMap_eq_nil.mpr ?_
        intro p _
        cases hsb : suffixBase p.1 with
        | some r => simp [scalarWrite, hsb]
        | none =>
            have hpne : ¬(p.1 = base ++ "_" ++ pyNatStr i) := by
              intro hh
              rw [hh, suffixBase_append_natStr base i hb hnl] at hsb
              exact Option.noConfusion hsb
            simp [scalarWrite, hsb, hpne]
      rw [h1, h3]
      simp
    rw [hwrites]
    simp [lookupA]

/-- Witness for C9: names `[x, base_0, base_1, y_7]` with values
`[9, 1, 2, 8]` bind `base` to `["1", "2"]` and leave `base_0`, `base_1`
absent. -/
theorem cds_c9_witness :
    lookupA (generateFieldMap ["x", "base_0", "base_1", "y_7"] ["9", "1", "2", "8"])
      "base" = some (.l ["1", "2"]) ∧
    lookupA (generateFieldMap ["x", "base_0", "base_1", "y_7"] ["9", "1", "2", "8"])
      ("base" ++ "_" ++ pyNatStr 0) = none ∧
    lookupA (generateFieldMap ["x", "base_0", "base_1", "y_7"] ["9", "1", "2", "8"])
      ("base" ++ "_" ++ pyNatStr 1) = none := by
  have h := cds_c9_amended "base" 2 ["x"] ["y_7"] ["9"] ["1", "2"] ["8"]
    (by decide) (by decide) (by decide) rfl rfl rfl
    (by
      intro x hx
      fin_cases hx
      · intro r hr
        rw [show suffixBase "x" = none from rfl] at hr
        exact Option.noConfusion hr
      · intro r hr
        rw [show suffixBase "y_7" = some ("y", "7") from rfl] at hr
        injection hr with h
        rw [← h]
        decide)
  exact ⟨h.1, h.2 0 (by decide), h.2 1 (by decide)⟩

end CDS
